import Mathlib

/-!
Verification development for `update_notion_prices.py`, a batch script that
reads rows from a Notion database, fetches the latest daily close for each
row's ticker from Stooq's CSV endpoint, and writes the price back.

The script is shallowly embedded below.  Conventions of the embedding:

* Python strings are Lean `String`s; the handful of `str` methods the script
  uses (`strip`, `upper`, `splitlines`, `split`) are re-implemented as
  executable Lean functions (`pyStrip`, `pyUpper`, `pySplitlines`,
  `pySplitComma`) over the underlying character lists.  `pyStrip` and
  `pySplitlines` cover the ASCII whitespace / line-break characters
  (space, tab, `\n`, `\r`, `\x0b`, `\x0c`); the rarely-seen extra Unicode
  line breaks Python additionally recognises are outside the model.
* Python `float` values are modelled as exact rationals (`ℚ`); `pyFloat`
  models the decimal-literal core of the `float(...)` builtin (optional
  sign, digits with optional decimal point, optional exponent).  The
  `inf`/`nan` spellings and digit-group underscores accepted by Python,
  and binary-double rounding, are outside the model.
* `datetime.strptime` for the two formats `%Y-%m-%d` and `%Y%m%d` is
  modelled following CPython's `_strptime` regexes, including alternation
  order and the full-match requirement, followed by `datetime.date`'s
  calendar validity check.
* HTTP is modelled by passing the server explicitly as a function from the
  requested URL to a response; functions that perform requests also return
  the list of URLs they requested, so that request behaviour is provable.
* `time.sleep` and `print` are behaviourally irrelevant to the properties
  below (counts and call lists are modelled instead) and are omitted.
-/

/-- Python `str.strip` whitespace set (ASCII part): space, `\t`, `\n`,
`\r`, `\x0b`, `\x0c`. -/
def isPySpace (c : Char) : Bool :=
  c = ' ' || c = '\t' || c = '\n' || c = '\r' || c = '\x0b' || c = '\x0c'

/-- Python `str.strip()`: drop leading and trailing whitespace. -/
def pyStrip (s : String) : String :=
  ⟨((s.data.dropWhile isPySpace).reverse.dropWhile isPySpace).reverse⟩

/-- Python `str.upper()` (ASCII letters; tickers are ASCII). -/
def pyUpper (s : String) : String :=
  ⟨s.data.map Char.toUpper⟩

/-- Line-break characters for `str.splitlines` (ASCII part); `\r\n` is
handled as a single break by `pySplitlinesAux`. -/
def isPyLineBreak (c : Char) : Bool :=
  c = '\n' || c = '\r' || c = '\x0b' || c = '\x0c'

/-- Worker for `pySplitlines`: `acc` holds the current line reversed. -/
def pySplitlinesAux : List Char → List Char → List (List Char)
  | [], acc => if acc.isEmpty then [] else [acc.reverse]
  | '\r' :: '\n' :: rest, acc => acc.reverse :: pySplitlinesAux rest []
  | c :: rest, acc =>
      if isPyLineBreak c then acc.reverse :: pySplitlinesAux rest []
      else pySplitlinesAux rest (c :: acc)

/-- Python `str.splitlines()`. -/
def pySplitlines (s : String) : List String :=
  (pySplitlinesAux s.data []).map fun cs => ⟨cs⟩

/-- Numeric value of a digit list, most significant first. -/
def digitsVal (cs : List Char) : ℕ :=
  cs.foldl (fun a c => 10 * a + (c.toNat - '0'.toNat)) 0

/-- Exponent suffix of a float literal: after `e`/`E`, an optional sign and
a nonempty digit run consuming the rest of the string; scales the mantissa
`num / den` by the power of ten.  (Helper for `pyFloat`.) -/
def pyFloatExp (num : ℤ) (den : ℕ) (r : List Char) : Option ℚ :=
  let esignAndRest : Bool × List Char :=
    match r with
    | '+' :: r2 => (true, r2)
    | '-' :: r2 => (false, r2)
    | r2 => (true, r2)
  let expPart := esignAndRest.2.span Char.isDigit
  if expPart.1 = [] ∨ expPart.2 ≠ [] then none
  else if esignAndRest.1 then some (mkRat (num * 10 ^ digitsVal expPart.1) den)
  else some (mkRat num (den * 10 ^ digitsVal expPart.1))

/-- Model of Python's `float(...)` builtin on an already-stripped string:
optional sign, then decimal digits with an optional decimal point (at least
one digit overall), then an optional exponent.  Returns the exact rational
value (built with `mkRat` from the digit strings).  (`inf`/`nan` and `_`
digit separators are outside the model.) -/
def pyFloat (s : String) : Option ℚ :=
  let signAndRest : Bool × List Char :=
    match s.data with
    | '+' :: r => (false, r)
    | '-' :: r => (true, r)
    | r => (false, r)
  let intPart := signAndRest.2.span Char.isDigit
  let fracAndRest : Option (List Char) × List Char :=
    match intPart.2 with
    | '.' :: r => let p := r.span Char.isDigit; (some p.1, p.2)
    | r => (none, r)
  let fracDigits := (fracAndRest.1).getD []
  if intPart.1 = [] ∧ fracDigits = [] then none
  else
    let n0 : ℤ := (digitsVal (intPart.1 ++ fracDigits) : ℤ)
    let num : ℤ := if signAndRest.1 then -n0 else n0
    let den : ℕ := 10 ^ fracDigits.length
    match fracAndRest.2 with
    | [] => some (mkRat num den)
    | 'e' :: r => pyFloatExp num den r
    | 'E' :: r => pyFloatExp num den r
    | _ => none

/-- A Python `datetime.date` value. -/
structure PyDate where
  y : ℕ
  m : ℕ
  d : ℕ
deriving DecidableEq

/-- Python `date` comparison: lexicographic on (year, month, day). -/
def dateLt (a b : PyDate) : Prop :=
  a.y < b.y ∨ (a.y = b.y ∧ (a.m < b.m ∨ (a.m = b.m ∧ a.d < b.d)))

instance (a b : PyDate) : Decidable (dateLt a b) := by
  unfold dateLt; infer_instance

/-- Value of a digit character. -/
def charVal (c : Char) : ℕ := c.toNat - '0'.toNat

/-- Exactly four digit characters (`%Y` in CPython's `_strptime` regex). -/
def take4Digits : List Char → Option (ℕ × List Char)
  | a :: b :: c :: d :: r =>
      if a.isDigit ∧ b.isDigit ∧ c.isDigit ∧ d.isDigit then
        some (digitsVal [a, b, c, d], r)
      else none
  | _ => none

/-- Month candidates in CPython regex alternation order
`1[0-2]|0[1-9]|[1-9]`, each with the remaining input. -/
def monthCands : List Char → List (ℕ × List Char)
  | a :: b :: r =>
      (if a = '1' ∧ (b = '0' ∨ b = '1' ∨ b = '2') then [(10 + charVal b, r)] else []) ++
      (if a = '0' ∧ b.isDigit ∧ b ≠ '0' then [(charVal b, r)] else []) ++
      (if a.isDigit ∧ a ≠ '0' then [(charVal a, b :: r)] else [])
  | [a] => if a.isDigit ∧ a ≠ '0' then [(charVal a, [])] else []
  | [] => []

/-- Day candidates in CPython regex alternation order
`3[01]|[12][0-9]|0[1-9]|[1-9]`, each with the remaining input. -/
def dayCands : List Char → List (ℕ × List Char)
  | a :: b :: r =>
      (if a = '3' ∧ (b = '0' ∨ b = '1') then [(30 + charVal b, r)] else []) ++
      (if (a = '1' ∨ a = '2') ∧ b.isDigit then [(10 * charVal a + charVal b, r)] else []) ++
      (if a = '0' ∧ b.isDigit ∧ b ≠ '0' then [(charVal b, r)] else []) ++
      (if a.isDigit ∧ a ≠ '0' then [(charVal a, b :: r)] else [])
  | [a] => if a.isDigit ∧ a ≠ '0' then [(charVal a, [])] else []
  | [] => []

/-- Regex phase of `strptime(s, "%Y-%m-%d")`: first full match in
alternation order, before calendar validation. -/
def isoMatch (cs : List Char) : Option (ℕ × ℕ × ℕ) :=
  match take4Digits cs with
  | none => none
  | some (y, r1) =>
      match r1 with
      | '-' :: r2 =>
          (monthCands r2).findSome? fun mc =>
            match mc.2 with
            | '-' :: r4 =>
                (dayCands r4).findSome? fun dc =>
                  if dc.2 = [] then some (y, mc.1, dc.1) else none
            | _ => none
      | _ => none

/-- Regex phase of `strptime(s, "%Y%m%d")`. -/
def compactMatch (cs : List Char) : Option (ℕ × ℕ × ℕ) :=
  match take4Digits cs with
  | none => none
  | some (y, r1) =>
      (monthCands r1).findSome? fun mc =>
        (dayCands mc.2).findSome? fun dc =>
          if dc.2 = [] then some (y, mc.1, dc.1) else none

/-- Gregorian leap year (as in Python's `calendar.isleap`). -/
def isLeap (y : ℕ) : Bool :=
  (y % 4 = 0 && y % 100 ≠ 0) || y % 400 = 0

/-- Days in a month (as in `datetime`). -/
def daysInMonth (y m : ℕ) : ℕ :=
  if m = 2 then (if isLeap y then 29 else 28)
  else if m = 4 ∨ m = 6 ∨ m = 9 ∨ m = 11 then 30
  else 31

/-- `datetime.date(y, m, d)` constructor: calendar validity check. -/
def mkDate (y m d : ℕ) : Option PyDate :=
  if 1 ≤ y ∧ y ≤ 9999 ∧ 1 ≤ m ∧ m ≤ 12 ∧ 1 ≤ d ∧ d ≤ daysInMonth y m then
    some ⟨y, m, d⟩
  else none

/-- `datetime.strptime(s, "%Y-%m-%d").date()`. -/
def parseDateISO (s : String) : Option PyDate :=
  (isoMatch s.data).bind fun t => mkDate t.1 t.2.1 t.2.2

/-- `datetime.strptime(s, "%Y%m%d").date()`. -/
def parseDateCompact (s : String) : Option PyDate :=
  (compactMatch s.data).bind fun t => mkDate t.1 t.2.1 t.2.2

/-- Lines 80-88 of the script: try `%Y-%m-%d`, then `%Y%m%d`; a string
parsing in neither format yields no date. -/
def parsePyDate (s : String) : Option PyDate :=
  match parseDateISO s with
  | some d => some d
  | none => parseDateCompact s

/-- An HTTP response as the script observes it: `r.ok` and `r.text`. -/
structure HttpResponse where
  ok : Bool
  text : String
deriving DecidableEq

/-- Line 49 of the script: the Stooq daily-CSV download URL for a symbol. -/
def stooqUrl (symbol : String) : String :=
  "https://stooq.com/q/d/l/?s=" ++ symbol ++ "&i=d"

/-- Worker for `pySplitComma`: `acc` holds the current field reversed. -/
def pySplitCommaAux : List Char → List Char → List String
  | [], acc => [⟨acc.reverse⟩]
  | c :: rest, acc =>
      if c = ',' then (⟨acc.reverse⟩ : String) :: pySplitCommaAux rest []
      else pySplitCommaAux rest (c :: acc)

/-- Python `s.split(",")`: split on every comma, keeping empty fields. -/
def pySplitComma (s : String) : List String :=
  pySplitCommaAux s.data []

/-- Lines 67-88 of the script, the per-line work of the CSV loop: split on
commas, require at least 5 fields, parse field 4 as the close and field 0
as the date; any failure skips the line (`none`). -/
def parseStooqLine (ln : String) : Option (PyDate × ℚ) :=
  let parts := pySplitComma ln
  if parts.length < 5 then none
  else
    let close_s := pyStrip (parts.getD 4 "")
    let date_s := pyStrip (parts.getD 0 "")
    match pyFloat close_s with
    | none => none
    | some close_v =>
        match parsePyDate date_s with
        | none => none
        | some d => some (d, close_v)

/-- Lines 90-92 of the script: keep the new entry iff its date is strictly
later than the best so far (`best_d is None or d > best_d`). -/
def stooqStep (best : Option (PyDate × ℚ)) (p : PyDate × ℚ) : Option (PyDate × ℚ) :=
  match best with
  | none => some p
  | some b => if dateLt b.1 p.1 then some p else some b

/-- The whole `for ln in lines[1:]` loop (lines 64-92) over the data lines:
the tracked (best date, best close) pair, if any line parsed. -/
def bestEntry (dataLines : List String) : Option (PyDate × ℚ) :=
  dataLines.foldl
    (fun best ln =>
      match parseStooqLine ln with
      | none => best
      | some p => stooqStep best p)
    none

/-- Line 94 of the script: the returned `best_close`. -/
def bestClose (dataLines : List String) : Option ℚ :=
  (bestEntry dataLines).map Prod.snd

/-- `fetch_price_stooq` (lines 38-94).  The HTTP layer is a parameter
`server : URL → response`; the second component of the result is the list
of URLs the function requested (empty or a singleton). -/
def fetch_price_stooq (server : String → HttpResponse) (ticker : String) :
    Option ℚ × List String :=
  let t := pyUpper (pyStrip ticker)
  if t = "" then (none, [])
  else
    let symbol := t ++ ".US"
    let url := stooqUrl symbol
    let r := server url
    if r.ok = false then (none, [url])
    else
      let lines := ((pySplitlines r.text).map pyStrip).filter (fun l => l != "")
      if lines.length < 2 then (none, [url])
      else (bestClose lines.tail, [url])

/-- A Notion property value as the script reads it: a title property holds
its text runs' `plain_text` fragments; other property shapes (status,
number, ...) all make `get_title_text` return the empty string and are
collapsed into `other`. -/
inductive PropValue where
  | title (runs : List String)
  | other
deriving DecidableEq

/-- A Notion page row: `page["id"]` and `page.get("properties", {})`. -/
structure Row where
  id : String
  properties : List (String × PropValue)
deriving DecidableEq

/-- `get_title_text` (lines 26-34): concatenate the title runs' plain
text and strip; `None`, an empty dict, and non-title shapes give `""`. -/
def get_title_text (propObj : Option PropValue) : String :=
  match propObj with
  | none => ""
  | some (PropValue.title runs) => pyStrip (String.join runs)
  | some PropValue.other => ""

/-- One `update_close` PATCH (lines 126-134): the row id and the payload
`{"properties": {CLOSE_PROP: {"number": price}}}`. -/
structure UpdateCall where
  page_id : String
  prop : String
  number : ℚ
deriving DecidableEq

/-- Observable outcome of a whole run of `main`: the two counters of the
final summary line, plus the quote fetches and row updates issued. -/
structure RunResult where
  updated : ℕ
  skipped : ℕ
  fetchCalls : List String
  updateCalls : List UpdateCall
deriving DecidableEq

/-- The body of `main`'s loop for one row (lines 140-159), with the quote
fetcher abstracted as `fetch : ticker → optional price`. -/
def processRow (tickerProp closeProp : String) (fetch : String → Option ℚ)
    (row : Row) : RunResult :=
  let ticker := get_title_text (row.properties.lookup tickerProp)
  if ticker = "" then ⟨0, 1, [], []⟩
  else
    match fetch ticker with
    | none => ⟨0, 1, [ticker], []⟩
    | some price => ⟨1, 0, [ticker], [⟨row.id, closeProp, price⟩]⟩

/-- Sequential combination of run results (counters add, call lists
concatenate in order). -/
def combineRun (a b : RunResult) : RunResult :=
  ⟨a.updated + b.updated, a.skipped + b.skipped,
   a.fetchCalls ++ b.fetchCalls, a.updateCalls ++ b.updateCalls⟩

/-- `main` (lines 136-161): a single in-order pass over the rows the query
yielded, processing each row once. -/
def runMain (tickerProp closeProp : String) (fetch : String → Option ℚ) :
    List Row → RunResult
  | [] => ⟨0, 0, [], []⟩
  | r :: rest =>
      combineRun (processRow tickerProp closeProp fetch r)
        (runMain tickerProp closeProp fetch rest)

/-- One JSON response of the Notion query endpoint as the script reads it:
`data.get("results", [])`, `data.get("has_more", False)` (`none` when the
key is absent), `data.get("next_cursor")`. -/
structure QueryResponse where
  results : List Row
  has_more : Option Bool
  next_cursor : Option String
deriving DecidableEq

/-- Loop state of `query_database_pages` (lines 108-124): the
`start_cursor` currently stored in the mutated `payload` dict (`none` when
the key was never set), and the `has_more` / `next_cursor` variables. -/
structure PagerState where
  payload_cursor : Option String
  has_more : Bool
  next_cursor : Option String
deriving DecidableEq

/-- Python truthiness of the `next_cursor` value (line 112's
`if next_cursor:`): a non-empty string. -/
def truthyCursor : Option String → Bool
  | none => false
  | some s => s != ""

/-- The `start_cursor` the next request will carry (`none` = key absent):
`payload["start_cursor"]` after line 112-113 ran. -/
def sentCursor (st : PagerState) : Option String :=
  if truthyCursor st.next_cursor then st.next_cursor else st.payload_cursor

/-- Observable outcome of `query_database_pages` run against a finite list
of server responses: the `start_cursor` of each request issued, the rows
yielded in order, and whether the `while has_more` loop exited before the
response list was exhausted. -/
structure PagerRun where
  requests : List (Option String)
  yielded : List Row
  finished : Bool
deriving DecidableEq

/-- `query_database_pages` (lines 97-124) against a finite supply of
responses, consumed in order; the constant `page_size`/`filter` parts of
the payload are omitted, only the mutated `start_cursor` key is tracked. -/
def runPager : PagerState → List QueryResponse → PagerRun
  | st, [] => if st.has_more = false then ⟨[], [], true⟩ else ⟨[], [], false⟩
  | st, resp :: rest =>
      if st.has_more = false then ⟨[], [], true⟩
      else
        let sent := sentCursor st
        let tailRun :=
          runPager ⟨sent, resp.has_more.getD false, resp.next_cursor⟩ rest
        ⟨sent :: tailRun.requests, resp.results ++ tailRun.yielded,
         tailRun.finished⟩

/-- Initial pager state (lines 108-109): no cursor, `has_more = True`. -/
def pagerInit : PagerState := ⟨none, true, none⟩

/-- The data-line parses of a list of CSV lines, in order: the entries the
loop's skip conditions let through. -/
def parsedEntries (ls : List String) : List (PyDate × ℚ) :=
  ls.filterMap parseStooqLine

/-- A Stooq CSV body whose data lines are in ascending date order
(2026-01-01 close 100.0, then 2026-01-27 close 188.52). -/
def csvBodyAsc : String :=
  "Date,Open,High,Low,Close,Volume\n2026-01-01,99,101,98,100.0,500\n2026-01-27,185,190,184,188.52,1000"

/-- The same two data lines in the opposite order. -/
def csvBodyDesc : String :=
  "Date,Open,High,Low,Close,Volume\n2026-01-27,185,190,184,188.52,1000\n2026-01-01,99,101,98,100.0,500"

/-- A quote server answering every URL successfully with `csvBodyAsc`. -/
def stooqServerAsc : String → HttpResponse := fun _ => ⟨true, csvBodyAsc⟩

/-- A quote server answering every URL successfully with `csvBodyDesc`. -/
def stooqServerDesc : String → HttpResponse := fun _ => ⟨true, csvBodyDesc⟩

/-- A quote server whose every response has a non-success HTTP status. -/
def failServer : String → HttpResponse := fun _ => ⟨false, ""⟩

/-- The single row of the end-to-end example: id `r1`, title property
`Ticker` with one text run `NVDA`, and a `Status` property. -/
def rowNvda : Row :=
  ⟨"r1", [("Ticker", PropValue.title ["NVDA"]), ("Status", PropValue.other)]⟩

/-- A row whose `Ticker` title property has only whitespace text runs. -/
def rowBlankTicker : Row :=
  ⟨"r2", [("Ticker", PropValue.title ["  ", " "]), ("Status", PropValue.other)]⟩

/-- The data lines the CSV loop iterates over (`lines[1:]` after stripping
and dropping blank lines), extracted from a response body. -/
def stooqDataLines (text : String) : List String :=
  (((pySplitlines text).map pyStrip).filter (fun l => l != "")).tail

/-! ### Order lemmas for `dateLt` (Python `date` comparison) -/

theorem dateLt_irrefl (a : PyDate) : ¬ dateLt a a := by
  obtain ⟨a1, a2, a3⟩ := a
  simp [dateLt]

theorem dateLt_trans {a b c : PyDate} (h1 : dateLt a b) (h2 : dateLt b c) :
    dateLt a c := by
  obtain ⟨a1, a2, a3⟩ := a
  obtain ⟨b1, b2, b3⟩ := b
  obtain ⟨c1, c2, c3⟩ := c
  simp only [dateLt] at h1 h2 ⊢
  omega

theorem not_dateLt_trans {a b c : PyDate} (h1 : ¬ dateLt b a) (h2 : ¬ dateLt c b) :
    ¬ dateLt c a := by
  obtain ⟨a1, a2, a3⟩ := a
  obtain ⟨b1, b2, b3⟩ := b
  obtain ⟨c1, c2, c3⟩ := c
  simp only [dateLt] at h1 h2 ⊢
  omega

theorem eq_of_not_dateLt {a b : PyDate} (h1 : ¬ dateLt a b) (h2 : ¬ dateLt b a) :
    a = b := by
  obtain ⟨a1, a2, a3⟩ := a
  obtain ⟨b1, b2, b3⟩ := b
  simp only [dateLt] at h1 h2
  simp only [PyDate.mk.injEq]
  omega

/-! ### The scan-for-maximum loop of `fetch_price_stooq` -/

theorem bestEntry_eq_foldl_aux (ls : List String) (acc : Option (PyDate × ℚ)) :
    ls.foldl
      (fun best ln =>
        match parseStooqLine ln with
        | none => best
        | some p => stooqStep best p) acc
      = (parsedEntries ls).foldl stooqStep acc := by
  induction ls generalizing acc with
  | nil => rfl
  | cons l ls ih =>
      simp only [List.foldl_cons, parsedEntries, List.filterMap_cons]
      cases h : parseStooqLine l with
      | none => simp only [h, ih, parsedEntries]
      | some p => simp only [h, ih, parsedEntries, List.foldl_cons]

theorem bestEntry_eq_foldl (ls : List String) :
    bestEntry ls = (parsedEntries ls).foldl stooqStep none :=
  bestEntry_eq_foldl_aux ls none

theorem foldl_stooqStep_spec (ps : List (PyDate × ℚ)) (b : PyDate × ℚ) :
    ∃ r, ps.foldl stooqStep (some b) = some r ∧ (r = b ∨ r ∈ ps) ∧
      ¬ dateLt r.1 b.1 ∧ ∀ q ∈ ps, ¬ dateLt r.1 q.1 := by
  induction ps generalizing b with
  | nil => exact ⟨b, rfl, Or.inl rfl, dateLt_irrefl b.1, by simp⟩
  | cons p ps ih =>
      simp only [List.foldl_cons]
      by_cases hbp : dateLt b.1 p.1
      · have hstep : stooqStep (some b) p = some p := by simp [stooqStep, hbp]
        rw [hstep]
        obtain ⟨r, hr, hmem, hge, hall⟩ := ih p
        refine ⟨r, hr, ?_, ?_, ?_⟩
        · rcases hmem with h | h
          · exact Or.inr (h ▸ List.mem_cons_self p ps)
          · exact Or.inr (List.mem_cons_of_mem p h)
        · intro hrb
          exact hge (dateLt_trans hrb hbp)
        · intro q hq
          rcases List.mem_cons.mp hq with h | h
          · exact h ▸ hge
          · exact hall q h
      · have hstep : stooqStep (some b) p = some b := by simp [stooqStep, hbp]
        rw [hstep]
        obtain ⟨r, hr, hmem, hge, hall⟩ := ih b
        refine ⟨r, hr, ?_, hge, ?_⟩
        · rcases hmem with h | h
          · exact Or.inl h
          · exact Or.inr (List.mem_cons_of_mem p h)
        · intro q hq
          rcases List.mem_cons.mp hq with h | h
          · exact h ▸ not_dateLt_trans hbp hge
          · exact hall q h

theorem foldl_stooqStep_max (ps : List (PyDate × ℚ)) (hne : ps ≠ []) :
    ∃ r, ps.foldl stooqStep none = some r ∧ r ∈ ps ∧
      ∀ q ∈ ps, ¬ dateLt r.1 q.1 := by
  match ps, hne with
  | p :: ps, _ =>
      simp only [List.foldl_cons]
      have hstep : stooqStep none p = some p := rfl
      rw [hstep]
      obtain ⟨r, hr, hmem, hge, hall⟩ := foldl_stooqStep_spec ps p
      refine ⟨r, hr, ?_, ?_⟩
      · rcases hmem with h | h
        · exact h ▸ List.mem_cons_self p ps
        · exact List.mem_cons_of_mem p h
      · intro q hq
        rcases List.mem_cons.mp hq with h | h
        · exact h ▸ hge
        · exact hall q h

theorem bestEntry_eq_none_iff (ls : List String) :
    bestEntry ls = none ↔ parsedEntries ls = [] := by
  rw [bestEntry_eq_foldl]
  constructor
  · intro h
    by_contra hne
    obtain ⟨r, hr, -, -⟩ := foldl_stooqStep_max (parsedEntries ls) hne
    rw [hr] at h
    exact Option.some_ne_none r h
  · intro h
    rw [h]
    rfl

theorem max_entry_unique {ps : List (PyDate × ℚ)}
    (hnd : (ps.map Prod.fst).Nodup) {r s : PyDate × ℚ}
    (hr : r ∈ ps) (hs : s ∈ ps)
    (hrmax : ∀ q ∈ ps, ¬ dateLt r.1 q.1) (hsmax : ∀ q ∈ ps, ¬ dateLt s.1 q.1) :
    r = s := by
  have hfst : r.1 = s.1 := eq_of_not_dateLt (hrmax s hs) (hsmax r hr)
  exact List.inj_on_of_nodup_map hnd hr hs hfst

theorem bestEntry_perm {ds es : List String} (hp : ds.Perm es)
    (hnd : ((parsedEntries ds).map Prod.fst).Nodup) :
    bestEntry ds = bestEntry es := by
  have hpe : (parsedEntries ds).Perm (parsedEntries es) :=
    hp.filterMap parseStooqLine
  rw [bestEntry_eq_foldl, bestEntry_eq_foldl]
  rcases eq_or_ne (parsedEntries ds) [] with h | h
  · have he : parsedEntries es = [] := by
      rw [h] at hpe
      exact hpe.symm.eq_nil
    rw [h, he]
  · have hne2 : parsedEntries es ≠ [] := by
      intro h2
      rw [h2] at hpe
      exact h hpe.eq_nil
    obtain ⟨r, hr, hrm, hrmax⟩ := foldl_stooqStep_max _ h
    obtain ⟨s, hs, hsm, hsmax⟩ := foldl_stooqStep_max _ hne2
    rw [hr, hs]
    have hsm' : s ∈ parsedEntries ds := hpe.mem_iff.mpr hsm
    have hsmax' : ∀ q ∈ parsedEntries ds, ¬ dateLt s.1 q.1 := fun q hq =>
      hsmax q (hpe.mem_iff.mp hq)
    rw [max_entry_unique hnd hrm hsm' hrmax hsmax']

/-! ### Driver lemmas -/

theorem combineRun_nil_left (b : RunResult) : combineRun ⟨0, 0, [], []⟩ b = b := by
  simp [combineRun]

theorem combineRun_assoc (a b c : RunResult) :
    combineRun (combineRun a b) c = combineRun a (combineRun b c) := by
  simp [combineRun, Nat.add_assoc, List.append_assoc]

theorem runMain_cons (tp cp : String) (f : String → Option ℚ) (r : Row)
    (rest : List Row) :
    runMain tp cp f (r :: rest) =
      combineRun (processRow tp cp f r) (runMain tp cp f rest) := rfl

theorem runMain_append (tp cp : String) (f : String → Option ℚ)
    (xs ys : List Row) :
    runMain tp cp f (xs ++ ys) =
      combineRun (runMain tp cp f xs) (runMain tp cp f ys) := by
  induction xs with
  | nil => simp [runMain, combineRun_nil_left]
  | cons x xs ih =>
      rw [List.cons_append, runMain_cons, ih, runMain_cons, combineRun_assoc]

theorem processRow_of_empty_ticker (tp cp : String) (f : String → Option ℚ)
    (r : Row) (h : get_title_text (r.properties.lookup tp) = "") :
    processRow tp cp f r = ⟨0, 1, [], []⟩ := by
  simp [processRow, h]

theorem processRow_of_no_price (tp cp : String) (f : String → Option ℚ)
    (r : Row) (hne : get_title_text (r.properties.lookup tp) ≠ "")
    (hf : f (get_title_text (r.properties.lookup tp)) = none) :
    processRow tp cp f r = ⟨0, 1, [get_title_text (r.properties.lookup tp)], []⟩ := by
  simp [processRow, hne, hf]

theorem processRow_updateCalls_id (tp cp : String) (f : String → Option ℚ)
    (r : Row) : ∀ c ∈ (processRow tp cp f r).updateCalls, c.page_id = r.id := by
  intro c hc
  by_cases h : get_title_text (r.properties.lookup tp) = ""
  · simp [processRow, h] at hc
  · simp only [processRow, if_neg h] at hc
    cases hf : f (get_title_text (r.properties.lookup tp)) with
    | none => simp [hf] at hc
    | some price =>
        simp [hf] at hc
        rw [hc]

theorem processRow_updateCalls_len (tp cp : String) (f : String → Option ℚ)
    (r : Row) : (processRow tp cp f r).updateCalls.length ≤ 1 := by
  by_cases h : get_title_text (r.properties.lookup tp) = ""
  · simp [processRow, h]
  · simp only [processRow, if_neg h]
    cases hf : f (get_title_text (r.properties.lookup tp)) with
    | none => simp
    | some price => simp

theorem processRow_counts (tp cp : String) (f : String → Option ℚ) (r : Row) :
    (processRow tp cp f r).updated + (processRow tp cp f r).skipped = 1 := by
  by_cases h : get_title_text (r.properties.lookup tp) = ""
  · simp [processRow, h]
  · simp only [processRow, if_neg h]
    cases hf : f (get_title_text (r.properties.lookup tp)) with
    | none => simp
    | some price => simp

theorem runMain_updateCalls_ids (tp cp : String) (f : String → Option ℚ)
    (rows : List Row) :
    ∀ c ∈ (runMain tp cp f rows).updateCalls, c.page_id ∈ rows.map Row.id := by
  induction rows with
  | nil => simp [runMain]
  | cons r rest ih =>
      intro c hc
      rw [runMain_cons] at hc
      simp only [combineRun] at hc
      rcases List.mem_append.mp hc with h | h
      · simp [processRow_updateCalls_id tp cp f r c h]
      · simp [ih c h]

theorem runMain_counts (tp cp : String) (f : String → Option ℚ)
    (rows : List Row) :
    (runMain tp cp f rows).updated + (runMain tp cp f rows).skipped =
      rows.length := by
  induction rows with
  | nil => simp [runMain]
  | cons r rest ih =>
      rw [runMain_cons]
      simp only [combineRun, List.length_cons]
      have := processRow_counts tp cp f r
      omega

theorem runMain_count_le_one (tp cp : String) (f : String → Option ℚ)
    (rows : List Row) (hnd : (rows.map Row.id).Nodup) (rid : String) :
    ((runMain tp cp f rows).updateCalls.map UpdateCall.page_id).count rid ≤ 1 := by
  induction rows with
  | nil => simp [runMain]
  | cons r rest ih =>
      rw [List.map_cons, List.nodup_cons] at hnd
      rw [runMain_cons]
      simp only [combineRun, List.map_append, List.count_append]
      by_cases hid : rid = r.id
      · have h1 : ((processRow tp cp f r).updateCalls.map UpdateCall.page_id).count rid ≤ 1 := by
          calc ((processRow tp cp f r).updateCalls.map UpdateCall.page_id).count rid
              ≤ ((processRow tp cp f r).updateCalls.map UpdateCall.page_id).length :=
                List.count_le_length rid _
            _ = (processRow tp cp f r).updateCalls.length := List.length_map _ _
            _ ≤ 1 := processRow_updateCalls_len tp cp f r
        have h2 : ((runMain tp cp f rest).updateCalls.map UpdateCall.page_id).count rid = 0 := by
          rw [List.count_eq_zero]
          intro hmem
          obtain ⟨c, hc, hcid⟩ := List.mem_map.mp hmem
          have hin := runMain_updateCalls_ids tp cp f rest c hc
          rw [hcid] at hin
          exact hnd.1 (hid ▸ hin)
        omega
      · have h1 : ((processRow tp cp f r).updateCalls.map UpdateCall.page_id).count rid = 0 := by
          rw [List.count_eq_zero]
          intro hmem
          obtain ⟨c, hc, hcid⟩ := List.mem_map.mp hmem
          exact hid (hcid ▸ (processRow_updateCalls_id tp cp f r c hc).symm).symm
        rw [h1]
        simpa using ih hnd.2

/-! ### Pager lemmas -/

theorem runPager_stop (st : PagerState) (resps : List QueryResponse)
    (h : st.has_more = false) : runPager st resps = ⟨[], [], true⟩ := by
  cases resps <;> simp [runPager, h]

theorem runPager_finished_iff (st : PagerState) (resps : List QueryResponse)
    (h : st.has_more = true) :
    (runPager st resps).finished = true ↔
      ∃ r ∈ resps, r.has_more.getD false = false := by
  induction resps generalizing st with
  | nil => simp [runPager, h]
  | cons resp rest ih =>
      simp only [runPager, h]
      cases hb : resp.has_more.getD false with
      | false =>
          rw [runPager_stop _ rest (by simp [hb])]
          simp [hb]
      | true =>
          simp only [Bool.true_eq_false, if_false]
          rw [ih ⟨sentCursor st, true, resp.next_cursor⟩ rfl]
          simp [hb]

/-! ### Ticker normalization and fetch-level lemmas -/

theorem pyUpper_eq_empty_iff (s : String) : pyUpper s = "" ↔ s = "" := by
  obtain ⟨cs⟩ := s
  simp [pyUpper, String.ext_iff]

theorem fetch_price_stooq_of_empty (server : String → HttpResponse)
    (ticker : String) (h : pyStrip ticker = "") :
    fetch_price_stooq server ticker = (none, []) := by
  have ht : pyUpper (pyStrip ticker) = "" := by
    rw [h]
    rfl
  simp [fetch_price_stooq, ht]

theorem fetch_price_stooq_requests (server : String → HttpResponse)
    (ticker : String) (h : pyStrip ticker ≠ "") :
    (fetch_price_stooq server ticker).2 =
      [stooqUrl (pyUpper (pyStrip ticker) ++ ".US")] := by
  have ht : pyUpper (pyStrip ticker) ≠ "" := by
    rw [ne_eq, pyUpper_eq_empty_iff]
    exact h
  simp only [fetch_price_stooq, if_neg ht]
  by_cases hok : (server (stooqUrl (pyUpper (pyStrip ticker) ++ ".US"))).ok = false
  · simp [hok]
  · rw [if_neg hok, apply_ite Prod.snd]
    simp

theorem fetch_price_stooq_not_ok (server : String → HttpResponse)
    (ticker : String)
    (hok : (server (stooqUrl (pyUpper (pyStrip ticker) ++ ".US"))).ok = false) :
    (fetch_price_stooq server ticker).1 = none := by
  by_cases ht : pyUpper (pyStrip ticker) = ""
  · simp [fetch_price_stooq, ht]
  · simp [fetch_price_stooq, ht, hok]

theorem tail_eq_nil_of_length_lt_two {α : Type} (l : List α)
    (h : l.length < 2) : l.tail = [] := by
  match l, h with
  | [], _ => rfl
  | [x], _ => rfl

theorem fetch_price_stooq_ok (server : String → HttpResponse)
    (ticker : String) (ht : pyUpper (pyStrip ticker) ≠ "")
    (hok : (server (stooqUrl (pyUpper (pyStrip ticker) ++ ".US"))).ok = true) :
    (fetch_price_stooq server ticker).1 =
      bestClose (stooqDataLines
        (server (stooqUrl (pyUpper (pyStrip ticker) ++ ".US"))).text) := by
  simp only [fetch_price_stooq, if_neg ht, hok, Bool.true_eq_false, if_false,
    stooqDataLines]
  split
  · rename_i hlen
    rw [tail_eq_nil_of_length_lt_two _ hlen]
    rfl
  · rfl

theorem runPager_cons (st : PagerState) (resp : QueryResponse)
    (rest : List QueryResponse) (h : st.has_more = true) :
    runPager st (resp :: rest) =
      ⟨sentCursor st ::
         (runPager ⟨sentCursor st, resp.has_more.getD false, resp.next_cursor⟩
           rest).requests,
       resp.results ++
         (runPager ⟨sentCursor st, resp.has_more.getD false, resp.next_cursor⟩
           rest).yielded,
       (runPager ⟨sentCursor st, resp.has_more.getD false, resp.next_cursor⟩
           rest).finished⟩ := by
  simp [runPager, h]

theorem runPager_repeat_none (rs : List Row) (n : ℕ) :
    (runPager pagerInit (List.replicate n ⟨rs, some true, none⟩)).finished = false ∧
    (runPager pagerInit (List.replicate n ⟨rs, some true, none⟩)).requests =
      List.replicate n none := by
  induction n with
  | zero => exact ⟨rfl, rfl⟩
  | succ n ih =>
      rw [List.replicate_succ, runPager_cons _ _ _ rfl]
      have hst : (⟨sentCursor pagerInit,
          (some true : Option Bool).getD false, (none : Option String)⟩ : PagerState) =
          pagerInit := rfl
      rw [hst]
      refine ⟨ih.1, ?_⟩
      rw [List.replicate_succ, ih.2]
      rfl

/-! ### Claim theorems -/

/-- Claim C1: for every CSV response body, `fetch_price_stooq` returns the
close value of the data line bearing the maximum parsed date, independent
of the order of the data lines (shown for data lines with pairwise distinct
parsed dates, which is what "the data line bearing the maximum parsed date"
presupposes), and returns `none` if no data line parses successfully.  In
particular, for a body with lines dated 2026-01-01 close 100.0 and
2026-01-27 close 188.52, in either order, it returns 188.52. -/
theorem C1_latest_close_by_max_date :
    (∀ ds : List String, parsedEntries ds = [] → bestClose ds = none) ∧
    (∀ (ds : List String) (d : PyDate) (c : ℚ),
        ((parsedEntries ds).map Prod.fst).Nodup →
        (d, c) ∈ parsedEntries ds →
        (∀ q ∈ parsedEntries ds, ¬ dateLt d q.1) →
        bestClose ds = some c) ∧
    (∀ ds es : List String, ds.Perm es →
        ((parsedEntries ds).map Prod.fst).Nodup →
        bestClose ds = bestClose es) ∧
    (∀ (server : String → HttpResponse) (ticker : String),
        pyUpper (pyStrip ticker) ≠ "" →
        (server (stooqUrl (pyUpper (pyStrip ticker) ++ ".US"))).ok = true →
        (fetch_price_stooq server ticker).1 =
          bestClose (stooqDataLines
            (server (stooqUrl (pyUpper (pyStrip ticker) ++ ".US"))).text)) ∧
    (fetch_price_stooq stooqServerAsc "NVDA").1 = some 188.52 ∧
    (fetch_price_stooq stooqServerDesc "NVDA").1 = some 188.52 := by
  have h52 : (188.52 : ℚ) = mkRat 18852 100 := by
    norm_num [Rat.mkRat_eq_div]
  refine ⟨?_, ?_, ?_, ?_, ?_, ?_⟩
  · intro ds h
    unfold bestClose
    rw [(bestEntry_eq_none_iff ds).mpr h]
    rfl
  · intro ds d c hnd hmem hmax
    have hne : parsedEntries ds ≠ [] := by
      intro h
      rw [h] at hmem
      exact List.not_mem_nil (d, c) hmem
    obtain ⟨r, hr, hrm, hrmax⟩ := foldl_stooqStep_max _ hne
    have hrdc : r = (d, c) := max_entry_unique hnd hrm hmem hrmax hmax
    unfold bestClose
    rw [bestEntry_eq_foldl, hr, hrdc]
    rfl
  · intro ds es hp hnd
    unfold bestClose
    rw [bestEntry_perm hp hnd]
  · exact fetch_price_stooq_ok
  · rw [h52]
    decide
  · rw [h52]
    decide

/-- Witness for C1: on a concrete pair of data lines, the line with the
later date (2026-01-27) supplies the returned close. -/
theorem C1_latest_close_by_max_date_witness :
    bestClose ["2026-01-01,99,101,98,100.0,500",
               "2026-01-27,185,190,184,188.52,1000"] =
      some (mkRat 18852 100) :=
  C1_latest_close_by_max_date.2.1
    ["2026-01-01,99,101,98,100.0,500", "2026-01-27,185,190,184,188.52,1000"]
    ⟨2026, 1, 27⟩ (mkRat 18852 100) (by decide) (by decide) (by decide)

/-- Claim C2: a data line with fewer than 5 comma-separated fields, or
whose field at index 4 fails to parse as a float, is skipped (`none`), and
removing such a line from the data lines does not change the result, so a
malformed line never aborts the parse of the remaining lines. -/
theorem C2_malformed_line_skipped :
    (∀ ln : String, (pySplitComma ln).length < 5 → parseStooqLine ln = none) ∧
    (∀ ln : String,
        pyFloat (pyStrip ((pySplitComma ln).getD 4 "")) = none →
        parseStooqLine ln = none) ∧
    (∀ (pre post : List String) (bad : String), parseStooqLine bad = none →
        bestClose (pre ++ bad :: post) = bestClose (pre ++ post)) := by
  refine ⟨?_, ?_, ?_⟩
  · intro ln h
    simp [parseStooqLine, h]
  · intro ln h
    rw [List.getD_eq_getElem?_getD] at h
    by_cases hlen : (pySplitComma ln).length < 5
    · simp [parseStooqLine, hlen]
    · simp [parseStooqLine, hlen, h]
  · intro pre post bad h
    have hpe : parsedEntries (pre ++ bad :: post) = parsedEntries (pre ++ post) := by
      unfold parsedEntries
      rw [List.filterMap_append, List.filterMap_append,
        List.filterMap_cons_none h]
    unfold bestClose
    rw [bestEntry_eq_foldl, bestEntry_eq_foldl, hpe]

/-- Witness for C2: a 4-field line between two valid lines is dropped
without affecting the rest of the parse. -/
theorem C2_malformed_line_skipped_witness :
    bestClose ["2026-01-01,1,2,3,4.5,6", "2026-01-02,1,2,3",
               "2026-01-03,1,2,3,7.5,6"] =
      bestClose ["2026-01-01,1,2,3,4.5,6", "2026-01-03,1,2,3,7.5,6"] :=
  C2_malformed_line_skipped.2.2 ["2026-01-01,1,2,3,4.5,6"]
    ["2026-01-03,1,2,3,7.5,6"] "2026-01-02,1,2,3" (by decide)

/-- Claim C3: a non-success HTTP status from the quote provider makes
`fetch_price_stooq` return `none` (no exception), and the driver records
such a row as a skip (with a quote-fetch attempt but no update call) and
still processes the rows before and after it. -/
theorem C3_quote_http_failure_is_skip :
    (∀ (server : String → HttpResponse) (ticker : String),
        (∀ u, (server u).ok = false) →
        (fetch_price_stooq server ticker).1 = none) ∧
    (∀ (tp cp : String) (f : String → Option ℚ) (pre post : List Row) (r : Row),
        get_title_text (r.properties.lookup tp) ≠ "" →
        f (get_title_text (r.properties.lookup tp)) = none →
        runMain tp cp f (pre ++ r :: post) =
          combineRun (runMain tp cp f pre)
            (combineRun ⟨0, 1, [get_title_text (r.properties.lookup tp)], []⟩
              (runMain tp cp f post))) := by
  refine ⟨?_, ?_⟩
  · intro server ticker hall
    exact fetch_price_stooq_not_ok server ticker (hall _)
  · intro tp cp f pre post r hne hf
    rw [runMain_append, runMain_cons, processRow_of_no_price tp cp f r hne hf]

/-- Witness for C3: an all-failing server yields no price for `NVDA`. -/
theorem C3_quote_http_failure_is_skip_witness :
    (fetch_price_stooq failServer "NVDA").1 = none :=
  C3_quote_http_failure_is_skip.1 failServer "NVDA" (fun _ => rfl)

/-- Claim C4: a row whose ticker title property concatenates to a
whitespace-only string is counted as a skip and triggers neither a quote
fetch nor an update call, while rows before and after it are processed
unchanged. -/
theorem C4_blank_ticker_skipped :
    ∀ (tp cp : String) (f : String → Option ℚ) (pre post : List Row) (r : Row)
      (runs : List String),
      r.properties.lookup tp = some (PropValue.title runs) →
      pyStrip (String.join runs) = "" →
      runMain tp cp f (pre ++ r :: post) =
        combineRun (runMain tp cp f pre)
          (combineRun ⟨0, 1, [], []⟩ (runMain tp cp f post)) := by
  intro tp cp f pre post r runs hlk hstrip
  have hget : get_title_text (r.properties.lookup tp) = "" := by
    rw [hlk]
    simpa [get_title_text] using hstrip
  rw [runMain_append, runMain_cons, processRow_of_empty_ticker tp cp f r hget]

/-- Witness for C4: a row whose title runs are all whitespace is skipped
with no fetch and no update. -/
theorem C4_blank_ticker_skipped_witness :
    runMain "Ticker" "Close" (fun _ => none) ([] ++ rowBlankTicker :: []) =
      combineRun (runMain "Ticker" "Close" (fun _ => none) [])
        (combineRun ⟨0, 1, [], []⟩ (runMain "Ticker" "Close" (fun _ => none) [])) :=
  C4_blank_ticker_skipped "Ticker" "Close" (fun _ => none) [] [] rowBlankTicker
    ["  ", " "] (by decide) (by decide)

/-- Claim C5: when the first query response has `has_more=true` with a
(non-empty) cursor and the second has `has_more=false`, the pager yields
every row of the first page then every row of the second, in order, and
terminates; the second request carries the first response's cursor as its
`start_cursor`, while the first request carries none. -/
theorem C5_pagination_two_pages :
    ∀ (rows1 rows2 : List Row) (cur : String) (hm2 : Option Bool)
      (nc2 : Option String),
      cur ≠ "" → hm2.getD false = false →
      runPager pagerInit
          [⟨rows1, some true, some cur⟩, ⟨rows2, hm2, nc2⟩] =
        ⟨[none, some cur], rows1 ++ rows2, true⟩ := by
  intro rows1 rows2 cur hm2 nc2 hcur hhm
  rw [runPager_cons _ _ _ rfl]
  have h1 : (⟨sentCursor pagerInit, (some true : Option Bool).getD false,
      some cur⟩ : PagerState) = ⟨none, true, some cur⟩ := rfl
  rw [h1, runPager_cons _ _ _ rfl]
  have h2 : sentCursor ⟨none, true, some cur⟩ = some cur := by
    simp [sentCursor, truthyCursor, hcur]
  rw [h2, runPager_stop _ _ hhm]
  simp [sentCursor, truthyCursor, pagerInit]

/-- Witness for C5: a concrete two-page run. -/
theorem C5_pagination_two_pages_witness :
    runPager pagerInit
        [⟨[rowNvda], some true, some "c1"⟩, ⟨[], some false, none⟩] =
      ⟨[none, some "c1"], [rowNvda] ++ [], true⟩ :=
  C5_pagination_two_pages [rowNvda] [] "c1" (some false) none (by decide)
    (by decide)

/-- Claim C6: for a table yielding the single row `r1` with ticker `NVDA`
and a quote source giving close 188.52, the driver issues exactly one
update call, with payload property `Close` and number 188.52 against row
`r1`, and the summary counts are Updated=1, Skipped=0. -/
theorem C6_end_to_end_single_row :
    runMain "Ticker" "Close"
        (fun tk => (fetch_price_stooq stooqServerAsc tk).1) [rowNvda] =
      ⟨1, 0, ["NVDA"], [⟨"r1", "Close", 188.52⟩]⟩ := by
  have h52 : (188.52 : ℚ) = mkRat 18852 100 := by
    norm_num [Rat.mkRat_eq_div]
  rw [h52]
  decide

/-- Claim C7: `fetch_price_stooq` normalizes the ticker by stripping and
uppercasing and requests exactly the URL for that symbol with the fixed
`.US` suffix appended (no character substitution); a ticker that strips to
the empty string yields `none` with no HTTP request at all. -/
theorem C7_ticker_normalization :
    ∀ (server : String → HttpResponse) (ticker : String),
      (pyStrip ticker = "" → fetch_price_stooq server ticker = (none, [])) ∧
      (pyStrip ticker ≠ "" →
        (fetch_price_stooq server ticker).2 =
          [stooqUrl (pyUpper (pyStrip ticker) ++ ".US")]) :=
  fun server ticker =>
    ⟨fetch_price_stooq_of_empty server ticker,
     fetch_price_stooq_requests server ticker⟩

/-- Witness for C7: a whitespace ticker issues no request; ` nvda `
requests exactly the `NVDA.US` Stooq URL. -/
theorem C7_ticker_normalization_witness :
    fetch_price_stooq stooqServerAsc "   " = (none, []) ∧
    (fetch_price_stooq stooqServerAsc " nvda ").2 =
      ["https://stooq.com/q/d/l/?s=NVDA.US&i=d"] :=
  ⟨(C7_ticker_normalization stooqServerAsc "   ").1 (by decide),
   (C7_ticker_normalization stooqServerAsc " nvda ").2 (by decide)⟩

/-- Claim C8: each yielded row triggers at most one update call; with
pairwise-distinct row ids, any given id is targeted by at most one update
in the whole run; and the run is a single in-order pass: the outcome of a
row list decomposes into the outcome of a prefix followed by the outcome of
the remainder, so a row is never revisited after being processed. -/
theorem C8_at_most_one_update_per_row :
    (∀ (tp cp : String) (f : String → Option ℚ) (rows : List Row),
        (rows.map Row.id).Nodup →
        ∀ rid : String,
          ((runMain tp cp f rows).updateCalls.map UpdateCall.page_id).count rid
            ≤ 1) ∧
    (∀ (tp cp : String) (f : String → Option ℚ) (r : Row),
        (processRow tp cp f r).updateCalls.length ≤ 1) ∧
    (∀ (tp cp : String) (f : String → Option ℚ) (xs ys : List Row),
        runMain tp cp f (xs ++ ys) =
          combineRun (runMain tp cp f xs) (runMain tp cp f ys)) :=
  ⟨runMain_count_le_one, processRow_updateCalls_len, runMain_append⟩

/-- Witness for C8: a concrete one-row run updates `r1` at most once. -/
theorem C8_at_most_one_update_per_row_witness :
    ((runMain "Ticker" "Close" (fun _ => some 1) [rowNvda]).updateCalls.map
        UpdateCall.page_id).count "r1" ≤ 1 :=
  C8_at_most_one_update_per_row.1 "Ticker" "Close" (fun _ => some 1) [rowNvda]
    (by decide) "r1"

/-- Claim C9: the final summary's Updated plus Skipped equals the number of
rows yielded; each row contributes exactly one to exactly one of the two
counters. -/
theorem C9_counts_partition_rows :
    ∀ (tp cp : String) (f : String → Option ℚ) (rows : List Row),
      (runMain tp cp f rows).updated + (runMain tp cp f rows).skipped =
          rows.length ∧
      ∀ r : Row,
        (processRow tp cp f r).updated + (processRow tp cp f r).skipped = 1 :=
  fun tp cp f rows =>
    ⟨runMain_counts tp cp f rows, fun r => processRow_counts tp cp f r⟩

/-- Claim C10: the pager's loop exits exactly when some response reports
`has_more` false (or omits it); each request carries the cursor
`sentCursor`, and a response with `has_more=true` but a null (or empty)
`next_cursor` leaves the next request's `start_cursor` unchanged, so a
server constantly answering `has_more=true, next_cursor=null` makes the
generator re-issue the cursor-less query forever. -/
theorem C10_pager_termination_iff :
    (∀ resps : List QueryResponse,
        (runPager pagerInit resps).finished = true ↔
          ∃ r ∈ resps, r.has_more.getD false = false) ∧
    (∀ (st : PagerState) (resp : QueryResponse) (rest : List QueryResponse),
        st.has_more = true →
        (runPager st (resp :: rest)).requests =
          sentCursor st ::
            (runPager ⟨sentCursor st, resp.has_more.getD false,
              resp.next_cursor⟩ rest).requests) ∧
    (∀ (st : PagerState) (resp : QueryResponse),
        truthyCursor resp.next_cursor = false →
        sentCursor ⟨sentCursor st, resp.has_more.getD false, resp.next_cursor⟩ =
          sentCursor st) ∧
    (∀ (rows1 : List Row) (n : ℕ),
        (runPager pagerInit
            (List.replicate n ⟨rows1, some true, none⟩)).finished = false ∧
        (runPager pagerInit
            (List.replicate n ⟨rows1, some true, none⟩)).requests =
          List.replicate n none) := by
  refine ⟨?_, ?_, ?_, ?_⟩
  · intro resps
    exact runPager_finished_iff pagerInit resps rfl
  · intro st resp rest h
    rw [runPager_cons st resp rest h]
  · intro st resp h
    simp [sentCursor, h]
  · intro rows1 n
    exact runPager_repeat_none rows1 n

/-- Witness for C10: a single `has_more=false` response ends the loop. -/
theorem C10_pager_termination_iff_witness :
    (runPager pagerInit [⟨[], some false, none⟩]).finished = true :=
  (C10_pager_termination_iff.1 [⟨[], some false, none⟩]).mpr
    ⟨⟨[], some false, none⟩, by decide, rfl⟩
